import Mathlib

/-!
Shallow embedding of the worktree-wizard lifecycle core (TypeScript) in Lean 4,
with theorems checking the natural-language specification against the code.

Strings are modelled as Lean `String`/`List Char`; JavaScript string methods
(`toLowerCase`, `replace`, `split`, `trim`, `slice`, `startsWith`,
`substring`) are modelled by explicit character-list functions defined below.
`toLowerCase` is modelled ASCII-only (`Char.toLower`); every concrete input
used in a theorem is ASCII, where the two agree.
-/

set_option maxHeartbeats 1000000
set_option maxRecDepth 100000

namespace WorktreeWizard

/-- Characters matched by the regex character class `[a-z0-9]` in `slug.ts`. -/
def isSlugChar (c : Char) : Bool := ('a' ≤ c && c ≤ 'z') || ('0' ≤ c && c ≤ '9')

/-- State machine for the regex replacement `[^a-z0-9]+` → `"-"`: the flag
records whether the previous character was part of a non-alphanumeric run,
so each maximal run is emitted as exactly one hyphen. -/
def hyphenateAux : Bool → List Char → List Char
  | _, [] => []
  | inRun, c :: cs =>
    if isSlugChar c then c :: hyphenateAux false cs
    else if inRun then hyphenateAux true cs
    else '-' :: hyphenateAux true cs

/-- Model of the regex replacement `.replace(/[^a-z0-9]+/g, '-')`:
every maximal run of characters outside `[a-z0-9]` becomes one hyphen. -/
def hyphenateRuns (l : List Char) : List Char := hyphenateAux false l

/-- Model of the regex replacement `.replace(/^-+|-+$/g, '')`:
strip the leading and the trailing run of hyphens. -/
def trimHyphens (l : List Char) : List Char :=
  ((l.dropWhile (fun c => c == '-')).reverse.dropWhile (fun c => c == '-')).reverse

/-- State machine for the hyphen-run collapse (pattern `-+`, replacement
`-`): the flag records whether the previous character was a hyphen. -/
def collapseAux : Bool → List Char → List Char
  | _, [] => []
  | prevHyphen, c :: cs =>
    if c = '-' then
      if prevHyphen then collapseAux true cs else '-' :: collapseAux true cs
    else c :: collapseAux false cs

/-- Model of the last regex replacement in `slugify` (hyphen-run collapse):
every run of hyphens becomes one hyphen. -/
def collapseHyphens (l : List Char) : List Char := collapseAux false l

/-- `slugify` from `src/utils/slug.ts`: lower-case, replace each run of
non-alphanumeric characters with a hyphen, strip leading/trailing hyphens,
collapse hyphen runs, then `slice(0, 50)`. -/
def slugify (text : String) : String :=
  String.mk ((collapseHyphens (trimHyphens (hyphenateRuns
    (text.data.map Char.toLower)))).take 50)

/-- Fuel-driven helper for `natDecDigits`; the fuel only needs to exceed the
number of digits, and `natDecDigits` supplies `n + 1`, which always does. -/
def natDecDigitsAux : Nat → Nat → List Char
  | 0, _ => []
  | fuel + 1, n =>
    if n < 10 then [Nat.digitChar n]
    else natDecDigitsAux fuel (n / 10) ++ [Nat.digitChar (n % 10)]

/-- Decimal digits of `n`, most significant first: the model of JavaScript
number-to-string interpolation `${n}` for a non-negative integer. -/
def natDecDigits (n : Nat) : List Char := natDecDigitsAux (n + 1) n

/-- Decimal rendering of `n` as a string. -/
def natDec (n : Nat) : String := String.mk (natDecDigits n)

/-- Model of `parseInt(digits, 10)` on a string of ASCII digits. -/
def parseDecDigits (l : List Char) : Nat :=
  l.foldl (fun acc c => acc * 10 + (c.toNat - 48)) 0

/-- `createBranchName` from `src/utils/slug.ts`:
`` `issue-${issueNumber}-${slug}` ``. -/
def createBranchName (issueNumber : Nat) (title : String) : String :=
  "issue-" ++ natDec issueNumber ++ "-" ++ slugify title

/-- `extractIssueNumber` from `src/utils/slug.ts`: match `/^issue-(\d+)/`
and parse the captured digits, otherwise `null`. -/
def extractIssueNumber (branchName : String) : Option Nat :=
  let l := branchName.data
  if ("issue-".data).isPrefixOf l then
    let digits := (l.drop 6).takeWhile Char.isDigit
    if digits = [] then none else some (parseDecDigits digits)
  else none

example : slugify "Fix Bug #123!" = "fix-bug-123" := by decide
example : createBranchName 7 "Fix Bug #123!" = "issue-7-fix-bug-123" := by decide
example : extractIssueNumber "issue-42-add-feature" = some 42 := by decide
example : extractIssueNumber "feature-42" = none := by decide

/-- `true` iff the list contains two adjacent hyphens. -/
def hasDoubleHyphen : List Char → Bool
  | [] => false
  | [_] => false
  | a :: b :: rest => (a == '-' && b == '-') || hasDoubleHyphen (b :: rest)

theorem mem_hyphenateAux {c : Char} :
    ∀ (b : Bool) (l : List Char), c ∈ hyphenateAux b l →
      isSlugChar c = true ∨ c = '-' := by
  intro b l
  induction l generalizing b with
  | nil => simp [hyphenateAux]
  | cons a as ih =>
    intro hmem
    simp only [hyphenateAux] at hmem
    by_cases hs : isSlugChar a
    · simp only [hs, if_pos] at hmem
      rcases List.mem_cons.mp hmem with h | h
      · left; exact h ▸ hs
      · exact ih false h
    · simp only [hs, if_neg, Bool.false_eq_true, if_false] at hmem
      cases b with
      | true => exact ih true hmem
      | false =>
        rcases List.mem_cons.mp hmem with h | h
        · right; exact h
        · exact ih true h

theorem mem_collapseAux {c : Char} :
    ∀ (b : Bool) (l : List Char), c ∈ collapseAux b l → c ∈ l := by
  intro b l
  induction l generalizing b with
  | nil => simp [collapseAux]
  | cons a as ih =>
    intro hmem
    simp only [collapseAux] at hmem
    by_cases ha : a = '-'
    · subst ha
      simp only [if_pos rfl] at hmem
      cases b with
      | true => exact List.mem_cons_of_mem _ (ih true hmem)
      | false =>
        rcases List.mem_cons.mp hmem with h | h
        · exact h ▸ List.mem_cons_self _ _
        · exact List.mem_cons_of_mem _ (ih true h)
    · simp only [if_neg ha] at hmem
      rcases List.mem_cons.mp hmem with h | h
      · exact h ▸ List.mem_cons_self _ _
      · exact List.mem_cons_of_mem _ (ih false h)

theorem mem_trimHyphens {c : Char} (l : List Char) (h : c ∈ trimHyphens l) :
    c ∈ l := by
  unfold trimHyphens at h
  rw [List.mem_reverse] at h
  have h2 := (List.dropWhile_sublist (l := (l.dropWhile (fun c => c == '-')).reverse)
    (fun c => c == '-')).mem h
  rw [List.mem_reverse] at h2
  exact (List.dropWhile_sublist _).mem h2

theorem head?_dropWhile_not {p : Char → Bool} :
    ∀ (l : List Char) (c : Char), (l.dropWhile p).head? = some c → p c = false := by
  intro l
  induction l with
  | nil => simp [List.dropWhile]
  | cons a as ih =>
    intro c h
    rw [List.dropWhile_cons] at h
    by_cases hp : p a
    · rw [if_pos hp] at h
      exact ih c h
    · rw [if_neg hp] at h
      simp only [List.head?_cons, Option.some.injEq] at h
      subst h
      exact Bool.eq_false_iff.mpr hp

theorem head?_trimHyphens {c : Char} (l : List Char)
    (h : (trimHyphens l).head? = some c) : ¬ c = '-' := by
  unfold trimHyphens at h
  set A := l.dropWhile (fun c => c == '-') with hA
  set X := A.reverse.dropWhile (fun c => c == '-') with hX
  have hpre : X.reverse <+: A := by
    have : X <:+ A.reverse := List.dropWhile_suffix _
    obtain ⟨t, ht⟩ := this
    exact ⟨t.reverse, by rw [← List.reverse_append, ht, List.reverse_reverse]⟩
  obtain ⟨t, ht⟩ := hpre
  have hXcons : ∃ r, X.reverse = c :: r := by
    cases hXr : X.reverse with
    | nil => rw [hXr] at h; simp at h
    | cons y ys =>
      rw [hXr] at h
      simp only [List.head?_cons, Option.some.injEq] at h
      exact ⟨ys, by rw [h]⟩
  obtain ⟨r, hr⟩ := hXcons
  have hAhead : A.head? = some c := by
    rw [← ht, hr]; rfl
  have := head?_dropWhile_not (p := fun c => c == '-') l c (hA ▸ hAhead)
  simpa using this

theorem head?_collapseAux_false (l : List Char) :
    (collapseAux false l).head? = l.head? := by
  cases l with
  | nil => rfl
  | cons a as =>
    simp only [collapseAux]
    by_cases ha : a = '-'
    · subst ha; simp
    · rw [if_neg ha]; rfl

theorem head?_collapseAux_true (l : List Char) :
    (collapseAux true l).head? ≠ some '-' := by
  induction l with
  | nil => simp [collapseAux]
  | cons a as ih =>
    simp only [collapseAux]
    by_cases ha : a = '-'
    · subst ha; simpa using ih
    · rw [if_neg ha]
      simpa using ha

theorem collapseAux_true_eq_nil {l : List Char} (h : collapseAux true l = []) :
    ∀ x ∈ l, x = '-' := by
  induction l with
  | nil => simp
  | cons a as ih =>
    simp only [collapseAux] at h
    by_cases ha : a = '-'
    · subst ha
      rw [if_pos rfl] at h
      intro x hx
      rcases List.mem_cons.mp hx with hx | hx
      · exact hx
      · exact ih h x hx
    · rw [if_neg ha] at h
      exact absurd h (List.cons_ne_nil _ _)

theorem hasDouble_collapseAux : ∀ (l : List Char) (b : Bool),
    hasDoubleHyphen (collapseAux b l) = false := by
  intro l
  induction l with
  | nil => intro b; rfl
  | cons a as ih =>
    intro b
    simp only [collapseAux]
    by_cases ha : a = '-'
    · subst ha
      rw [if_pos rfl]
      cases b with
      | true => exact ih true
      | false =>
        cases hX : collapseAux true as with
        | nil => rfl
        | cons y ys =>
          have hy : ¬ y = '-' := by
            have := head?_collapseAux_true as
            rw [hX] at this
            simpa using this
          simp only [hasDoubleHyphen, Bool.or_eq_false_iff, Bool.and_eq_false_iff]
          constructor
          · right; simpa using hy
          · rw [← hX]; exact ih true
    · rw [if_neg ha]
      cases hX : collapseAux false as with
      | nil => rfl
      | cons y ys =>
        simp only [hasDoubleHyphen, Bool.or_eq_false_iff, Bool.and_eq_false_iff]
        constructor
        · left; simpa using ha
        · rw [← hX]; exact ih false

theorem hasDouble_take : ∀ (l : List Char) (n : Nat),
    hasDoubleHyphen l = false → hasDoubleHyphen (l.take n) = false
  | [], n, _ => by simp [hasDoubleHyphen]
  | [a], n, _ => by
      cases n with
      | zero => rfl
      | succ m => cases m <;> rfl
  | a :: b :: rest, 0, _ => rfl
  | a :: b :: rest, 1, _ => rfl
  | a :: b :: rest, n + 2, h => by
      simp only [hasDoubleHyphen, Bool.or_eq_false_iff] at h
      have htail := hasDouble_take (b :: rest) (n + 1) h.2
      simp only [List.take_succ_cons, hasDoubleHyphen, Bool.or_eq_false_iff]
      exact ⟨h.1, by simpa using htail⟩

theorem getLast?_trimHyphens {c : Char} (l : List Char)
    (h : (trimHyphens l).getLast? = some c) : ¬ c = '-' := by
  unfold trimHyphens at h
  rw [List.getLast?_reverse] at h
  have := head?_dropWhile_not (p := fun c => c == '-') _ c h
  simpa using this

theorem allHyphen_getLast : ∀ (l : List Char), (∀ x ∈ l, x = '-') →
    ('-' :: l).getLast? = some '-' := by
  intro l
  induction l with
  | nil => intro _; rfl
  | cons a as ih =>
    intro h
    have ha : a = '-' := h a (List.mem_cons_self _ _)
    subst ha
    rw [List.getLast?_cons_cons]
    exact ih fun x hx => h x (List.mem_cons_of_mem _ hx)

theorem getLast?_collapseAux : ∀ (l : List Char) (b : Bool),
    (collapseAux b l).getLast? = some '-' → l.getLast? = some '-' := by
  intro l
  induction l with
  | nil => intro b h; simp [collapseAux] at h
  | cons a as ih =>
    intro b h
    simp only [collapseAux] at h
    by_cases ha : a = '-'
    · subst ha
      rw [if_pos rfl] at h
      cases b with
      | true =>
        have h' : (collapseAux true as).getLast? = some '-' := h
        cases has : as with
        | nil => rw [has] at h'; simp [collapseAux] at h'
        | cons y ys =>
          rw [List.getLast?_cons_cons]
          rw [← has]
          exact ih true h'
      | false =>
        have h' : ('-' :: collapseAux true as).getLast? = some '-' := h
        clear h
        rename' h' => h
        cases hX : collapseAux true as with
        | nil =>
          exact allHyphen_getLast as (collapseAux_true_eq_nil hX)
        | cons y ys =>
          rw [hX, List.getLast?_cons_cons] at h
          rw [← hX] at h
          have := ih true h
          cases has : as with
          | nil => rw [has] at hX; simp [collapseAux] at hX
          | cons z zs =>
            rw [List.getLast?_cons_cons, ← has]
            exact this
    · rw [if_neg ha] at h
      cases hX : collapseAux false as with
      | nil =>
        rw [hX] at h
        simp only [List.getLast?_singleton, Option.some.injEq] at h
        exact absurd h ha
      | cons y ys =>
        rw [hX, List.getLast?_cons_cons] at h
        rw [← hX] at h
        have := ih false h
        cases has : as with
        | nil => rw [has] at hX; simp [collapseAux] at hX
        | cons z zs =>
          rw [List.getLast?_cons_cons, ← has]
          exact this

/-- **C2** (corrected). For every input string, `slugify`'s output only
contains characters in `[a-z0-9-]`, has no leading hyphen, has no internal
run of two or more hyphens, and has length at most 50; it additionally has no
trailing hyphen whenever the slug before the final `slice(0, 50)` is at most
50 characters long.  (The unconditional no-trailing-hyphen claim is false:
truncation happens after hyphen-trimming and can cut directly after a hyphen,
see the counterexample.) -/
theorem slugify_shape (text : String) :
    (∀ c ∈ (slugify text).data, isSlugChar c = true ∨ c = '-')
    ∧ (slugify text).data.head? ≠ some '-'
    ∧ hasDoubleHyphen (slugify text).data = false
    ∧ (slugify text).length ≤ 50
    ∧ ((collapseHyphens (trimHyphens (hyphenateRuns
          (text.data.map Char.toLower)))).length ≤ 50 →
        (slugify text).data.getLast? ≠ some '-') := by
  have hdata : (slugify text).data =
      (collapseHyphens (trimHyphens (hyphenateRuns
        (text.data.map Char.toLower)))).take 50 := rfl
  set core := collapseHyphens (trimHyphens (hyphenateRuns
    (text.data.map Char.toLower))) with hcore
  refine ⟨?_, ?_, ?_, ?_, ?_⟩
  · intro c hc
    rw [hdata] at hc
    have hc1 : c ∈ core := (List.take_sublist _ _).mem hc
    have hc2 : c ∈ trimHyphens (hyphenateRuns (text.data.map Char.toLower)) :=
      mem_collapseAux false _ hc1
    have hc3 : c ∈ hyphenateRuns (text.data.map Char.toLower) :=
      mem_trimHyphens _ hc2
    exact mem_hyphenateAux false _ hc3
  · rw [hdata]
    intro h
    have h50 : (core.take 50).head? = core.head? := by
      cases core with
      | nil => rfl
      | cons a as => rfl
    rw [h50] at h
    rw [hcore] at h
    rw [show collapseHyphens (trimHyphens (hyphenateRuns
      (text.data.map Char.toLower))) = collapseAux false (trimHyphens
      (hyphenateRuns (text.data.map Char.toLower))) from rfl,
      head?_collapseAux_false] at h
    exact head?_trimHyphens _ h rfl
  · rw [hdata]
    exact hasDouble_take core 50 (hasDouble_collapseAux _ false)
  · have : (slugify text).length = ((core.take 50)).length := rfl
    rw [this, List.length_take]
    omega
  · intro hlen h
    rw [hdata, List.take_of_length_le hlen] at h
    have := getLast?_collapseAux _ false h
    exact getLast?_trimHyphens _ this rfl

/-- **C2** counterexample to the claim as stated: for the 52-character input
consisting of 26 repetitions of `"a "`, the pre-truncation slug is the
51-character `a-a-…-a`, and `slice(0, 50)` cuts right after a hyphen, so the
output ends in a hyphen. -/
theorem slugify_trailing_hyphen_cex :
    (slugify "a a a a a a a a a a a a a a a a a a a a a a a a a a ").data.getLast?
      = some '-' := by decide

/-- Witness for `slugify_shape` at a concrete input, discharging the inner
implication of the last conjunct. -/
theorem slugify_shape_witness :
    (slugify "Fix Bug #123!").data.getLast? ≠ some '-' :=
  (slugify_shape "Fix Bug #123!").2.2.2.2 (by decide)

theorem digitChar_isDigit {d : Nat} (h : d < 10) :
    (Nat.digitChar d).isDigit = true := by
  interval_cases d <;> decide

theorem digitChar_toNat {d : Nat} (h : d < 10) :
    (Nat.digitChar d).toNat - 48 = d := by
  interval_cases d <;> decide

theorem parse_natDecDigitsAux : ∀ (fuel n : Nat), n < fuel →
    parseDecDigits (natDecDigitsAux fuel n) = n := by
  intro fuel
  induction fuel with
  | zero => intro n h; omega
  | succ f ih =>
    intro n h
    simp only [natDecDigitsAux]
    by_cases h10 : n < 10
    · rw [if_pos h10]
      simp only [parseDecDigits, List.foldl_cons, List.foldl_nil]
      rw [Nat.zero_mul, Nat.zero_add]
      exact digitChar_toNat h10
    · rw [if_neg h10]
      have hdiv : n / 10 < n := Nat.div_lt_self (by omega) (by omega)
      have hmod : n % 10 < 10 := Nat.mod_lt _ (by omega)
      simp only [parseDecDigits, List.foldl_append, List.foldl_cons,
        List.foldl_nil]
      have hfold := ih (n / 10) (by omega)
      simp only [parseDecDigits] at hfold
      rw [hfold, digitChar_toNat hmod]
      have := Nat.div_add_mod n 10
      omega

theorem natDecDigitsAux_digits : ∀ (fuel n : Nat),
    ∀ c ∈ natDecDigitsAux fuel n, c.isDigit = true := by
  intro fuel
  induction fuel with
  | zero => intro n c hc; simp [natDecDigitsAux] at hc
  | succ f ih =>
    intro n c hc
    simp only [natDecDigitsAux] at hc
    by_cases h10 : n < 10
    · rw [if_pos h10] at hc
      simp only [List.mem_singleton] at hc
      exact hc ▸ digitChar_isDigit h10
    · rw [if_neg h10] at hc
      rcases List.mem_append.mp hc with h | h
      · exact ih (n / 10) c h
      · simp only [List.mem_singleton] at h
        exact h ▸ digitChar_isDigit (Nat.mod_lt _ (by omega))

theorem natDecDigits_ne_nil (n : Nat) : natDecDigits n ≠ [] := by
  simp only [natDecDigits, natDecDigitsAux]
  by_cases h10 : n < 10
  · rw [if_pos h10]; simp
  · rw [if_neg h10]; simp

theorem takeWhile_append_all {p : Char → Bool} :
    ∀ (l₁ l₂ : List Char), (∀ c ∈ l₁, p c = true) →
      (l₁ ++ l₂).takeWhile p = l₁ ++ l₂.takeWhile p := by
  intro l₁
  induction l₁ with
  | nil => intro l₂ _; rfl
  | cons a as ih =>
    intro l₂ h
    have ha : p a = true := h a (List.mem_cons_self _ _)
    simp only [List.cons_append, List.takeWhile_cons, ha, if_pos]
    rw [ih l₂ fun c hc => h c (List.mem_cons_of_mem _ hc)]

theorem isPrefixOf_append_self : ∀ (l₁ l₂ : List Char),
    l₁.isPrefixOf (l₁ ++ l₂) = true := by
  intro l₁
  induction l₁ with
  | nil => intro l₂; simp [List.isPrefixOf]
  | cons a as ih =>
    intro l₂
    simp only [List.cons_append, List.isPrefixOf_cons₂_self]
    exact ih l₂

/-- For every `n` and suffix `s`, the regex `/^issue-(\d+)/` applied to
`issue-<n>-<s>` captures exactly the decimal digits of `n` (the following
hyphen stops the digit run) and parsing them back yields `n`. -/
theorem extractIssueNumber_issue (n : Nat) (s : String) :
    extractIssueNumber ("issue-" ++ natDec n ++ "-" ++ s) = some n := by
  have hdata : ("issue-" ++ natDec n ++ "-" ++ s).data =
      "issue-".data ++ (natDecDigits n ++ ('-' :: s.data)) := by
    simp only [String.data_append, natDec]
    simp [String.data]
  simp only [extractIssueNumber, hdata]
  rw [isPrefixOf_append_self]
  simp only [if_pos]
  have hlen : ("issue-".data).length = 6 := rfl
  rw [← hlen, List.drop_left]
  rw [takeWhile_append_all (natDecDigits n) ('-' :: s.data)
    (fun c hc => natDecDigitsAux_digits (n + 1) n c hc)]
  have hstop : (('-' :: s.data).takeWhile Char.isDigit) = [] := by
    rw [List.takeWhile_cons]
    simp
  rw [hstop, List.append_nil]
  rw [if_neg (natDecDigits_ne_nil n)]
  rw [show natDecDigits n = natDecDigitsAux (n + 1) n from rfl,
    parse_natDecDigitsAux (n + 1) n (Nat.lt_succ_self n)]

/-- **C5** (confirmed). For every issue number `n` and title `t`,
`extractIssueNumber (createBranchName n t) = n`: the branch name is
`issue-<n>-<slug>`, the regex `/^issue-(\d+)/` captures exactly the decimal
digits of `n` (the following hyphen stops the digit run), and parsing them
back yields `n`. -/
theorem extractIssueNumber_createBranchName (n : Nat) (t : String) :
    extractIssueNumber (createBranchName n t) = some n :=
  extractIssueNumber_issue n (slugify t)

/-! ## Generic JavaScript string-method models -/

/-- Model of `String.prototype.trim`: drop whitespace from both ends. -/
def jsTrim (l : List Char) : List Char :=
  ((l.dropWhile Char.isWhitespace).reverse.dropWhile Char.isWhitespace).reverse

/-- Model of `String.prototype.split` with a one-character separator. -/
def splitOnChar (sep : Char) : List Char → List (List Char)
  | [] => [[]]
  | c :: cs =>
    match splitOnChar sep cs with
    | [] => [[]]
    | h :: t => if c = sep then [] :: h :: t else (c :: h) :: t

/-- Model of `String.prototype.includes`: does `pat` occur as a contiguous
substring? -/
def isSubstringOf (pat : List Char) : List Char → Bool
  | [] => pat.isEmpty
  | c :: cs => pat.isPrefixOf (c :: cs) || isSubstringOf pat cs

/-- Model of `String.prototype.replace` with a plain-string pattern and empty
replacement: remove the first occurrence of `pat`, if any. -/
def replaceFirstL (pat : List Char) : List Char → List Char
  | [] => []
  | c :: cs =>
    if pat.isPrefixOf (c :: cs) then (c :: cs).drop pat.length
    else c :: replaceFirstL pat cs

/-! ## `cleanGitError` (src/services/git.ts) -/

/-- Model of the regex replacement `^fatal:\s*` → `""` with the
case-insensitive flag: if the string starts with `fatal:` in any case, drop
it together with the immediately following whitespace. -/
def stripFatal (l : List Char) : List Char :=
  if (l.take 6).map Char.toLower = "fatal:".data then
    (l.drop 6).dropWhile Char.isWhitespace
  else l

/-- `cleanGitError` from `src/services/git.ts`: strip a leading `fatal:`
(case-insensitively), trim, then map the two known lock/unlock substrings to
fixed sentences; anything else passes through cleaned. -/
def cleanGitError (message : String) : String :=
  let cleaned := jsTrim (stripFatal message.data)
  if isSubstringOf ("is already locked".data) cleaned then "Worktree is already locked"
  else if isSubstringOf ("is not locked".data) cleaned then "Worktree is not locked"
  else String.mk cleaned

example : cleanGitError "fatal: branch not found" = "branch not found" := by decide
example : cleanGitError "FATAL:   worktree is already locked" =
    "Worktree is already locked" := by decide

/-- **C9** counterexample to the claim as stated: a (cleaned) string that
contains both `"is already locked"` and `"is not locked"` maps to
`"Worktree is already locked"`, because the code checks the two substrings
in that order — contradicting the claim's unconditional rule that any string
containing `"is not locked"` maps to `"Worktree is not locked"`. -/
theorem cleanGitError_both_substrings_cex :
    cleanGitError "fatal: it is already locked and is not locked" =
      "Worktree is already locked"
    ∧ isSubstringOf ("is not locked".data)
        (jsTrim (stripFatal "fatal: it is already locked and is not locked".data)) = true
    ∧ "Worktree is already locked" ≠ "Worktree is not locked" := by
  refine ⟨by decide, by decide, by decide⟩

/-- **C9** (corrected). `cleanGitError` strips a leading case-insensitive
`fatal:` and trims; a cleaned string containing `"is already locked"` maps to
the first fixed sentence, one containing `"is not locked"` *but not*
`"is already locked"` maps to the second, anything else passes through
cleaned but verbatim, and empty input yields empty output.  The only
amendment to the claim: the `"is already locked"` rule takes priority when
both substrings occur. -/
theorem cleanGitError_spec (s : String) :
    (isSubstringOf ("is already locked".data) (jsTrim (stripFatal s.data)) = true →
      cleanGitError s = "Worktree is already locked")
    ∧ (isSubstringOf ("is already locked".data) (jsTrim (stripFatal s.data)) = false →
        isSubstringOf ("is not locked".data) (jsTrim (stripFatal s.data)) = true →
        cleanGitError s = "Worktree is not locked")
    ∧ (isSubstringOf ("is already locked".data) (jsTrim (stripFatal s.data)) = false →
        isSubstringOf ("is not locked".data) (jsTrim (stripFatal s.data)) = false →
        cleanGitError s = String.mk (jsTrim (stripFatal s.data)))
    ∧ cleanGitError (String.mk ("FATAL:".data ++ s.data)) =
        cleanGitError (String.mk ("fatal:".data ++ s.data))
    ∧ cleanGitError "" = "" := by
  refine ⟨?_, ?_, ?_, ?_, by decide⟩
  · intro h
    simp [cleanGitError, h]
  · intro h1 h2
    simp [cleanGitError, h1, h2]
  · intro h1 h2
    simp [cleanGitError, h1, h2]
  · have hstrip : ∀ (u : List Char), (u.take 6).map Char.toLower = "fatal:".data →
        stripFatal u = (u.drop 6).dropWhile Char.isWhitespace := by
      intro u hu
      simp [stripFatal, hu]
    have h1 : stripFatal ("FATAL:".data ++ s.data) =
        s.data.dropWhile Char.isWhitespace := by
      rw [hstrip]
      · rw [show ("FATAL:".data ++ s.data).drop 6 = s.data by
          rw [show (6 : Nat) = ("FATAL:".data).length from rfl, List.drop_left]]
      · rw [show ("FATAL:".data ++ s.data).take 6 = "FATAL:".data by
          rw [show (6 : Nat) = ("FATAL:".data).length from rfl, List.take_left]]
        decide
    have h2 : stripFatal ("fatal:".data ++ s.data) =
        s.data.dropWhile Char.isWhitespace := by
      rw [hstrip]
      · rw [show ("fatal:".data ++ s.data).drop 6 = s.data by
          rw [show (6 : Nat) = ("fatal:".data).length from rfl, List.drop_left]]
      · rw [show ("fatal:".data ++ s.data).take 6 = "fatal:".data by
          rw [show (6 : Nat) = ("fatal:".data).length from rfl, List.take_left]]
        decide
    simp only [cleanGitError, String.data]
    rw [h1, h2]

/-- Witness for `cleanGitError_spec`: at a concrete input containing neither
lock substring, the message passes through with `fatal:` stripped and
whitespace trimmed. -/
theorem cleanGitError_spec_witness :
    cleanGitError "fatal:  branch not found  " = "branch not found" :=
  ((cleanGitError_spec "fatal:  branch not found  ").2.2.1
    (by decide) (by decide)).trans (by decide)

/-! ## `isBranchMerged` (src/services/git.ts) -/

/-- Result of one subprocess invocation, as captured by `exec` in
`src/utils/exec.ts` (which never throws: non-zero exit and spawn failure are
both folded into the result). -/
structure ExecResult where
  stdout : String
  stderr : String
  exitCode : Int
deriving DecidableEq

/-- `isBranchMerged` from `src/services/git.ts`, with the two subprocess
results supplied as oracles: `branchCheck` is `git rev-parse --verify
<branch>`, `mergedList` is `git branch --merged <baseBranch>`.  Returns a
`Bool` and cannot raise: both failure branches return `false`. -/
def isBranchMerged (branchCheck mergedList : ExecResult)
    (branchName : String) : Bool :=
  if branchCheck.exitCode ≠ 0 then false
  else if mergedList.exitCode ≠ 0 then false
  else
    let mergedBranches := (splitOnChar '\n' mergedList.stdout.data).map
      (fun b => replaceFirstL ("* ".data) (jsTrim b))
    mergedBranches.contains branchName.data

/-- The normalization the spec describes: strip a *leading* current-branch
marker `"* "` from the trimmed line.  Modelled from the spec for comparison
with the code's `replaceFirstL` (which removes the first occurrence of
`"* "` anywhere in the line). -/
def stripLeadingMarker (l : List Char) : List Char :=
  if ("* ".data).isPrefixOf l then l.drop 2 else l

/-- **C8** counterexample to the claim as stated: with an enumerated line
`"foo* bar"` (no *leading* current-branch marker), the code removes the
embedded `"* "` and reports branch `"foobar"` as merged, while membership
"after stripping a leading current-branch marker" — the claim's wording —
is false. -/
theorem isBranchMerged_marker_cex :
    isBranchMerged ⟨"", "", 0⟩ ⟨"foo* bar", "", 0⟩ "foobar" = true
    ∧ ((splitOnChar '\n' "foo* bar".data).map
        (fun b => stripLeadingMarker (jsTrim b))).contains "foobar".data = false := by
  refine ⟨by decide, by decide⟩

/-- **C8** (corrected). `isBranchMerged` returns `false` — it cannot raise —
both when the branch-existence check fails and when the enumeration of
merged branches fails; when both succeed it returns `true` iff the branch
name is a member of the enumerated lines after trimming and removing the
*first occurrence* of the current-branch marker `"* "` anywhere in the line
(for well-formed git output this coincides with the leading marker, which is
the only amendment to the claim). -/
theorem isBranchMerged_spec (branchCheck mergedList : ExecResult)
    (branchName : String) :
    (branchCheck.exitCode ≠ 0 → isBranchMerged branchCheck mergedList branchName = false)
    ∧ (mergedList.exitCode ≠ 0 → isBranchMerged branchCheck mergedList branchName = false)
    ∧ (branchCheck.exitCode = 0 → mergedList.exitCode = 0 →
        (isBranchMerged branchCheck mergedList branchName = true ↔
          branchName.data ∈ (splitOnChar '\n' mergedList.stdout.data).map
            (fun b => replaceFirstL ("* ".data) (jsTrim b)))) := by
  refine ⟨?_, ?_, ?_⟩
  · intro h; simp [isBranchMerged, h]
  · intro h
    by_cases hb : branchCheck.exitCode ≠ 0
    · simp [isBranchMerged, hb]
    · simp [isBranchMerged, hb, h]
  · intro h1 h2
    simp [isBranchMerged, h1, h2, List.contains_iff_exists_mem_beq]

/-- Witness for `isBranchMerged_spec`: a failed branch-existence check gives
`false`, and a successful enumeration finds `"issue-1-x"` in its output. -/
theorem isBranchMerged_spec_witness :
    isBranchMerged ⟨"", "", 1⟩ ⟨"", "", 0⟩ "b" = false
    ∧ (isBranchMerged ⟨"ok", "", 0⟩ ⟨"  issue-1-x\n* main", "", 0⟩ "issue-1-x" = true ↔
        "issue-1-x".data ∈ (splitOnChar '\n' "  issue-1-x\n* main".data).map
          (fun b => replaceFirstL ("* ".data) (jsTrim b))) :=
  ⟨(isBranchMerged_spec ⟨"", "", 1⟩ ⟨"", "", 0⟩ "b").1 (by decide),
   (isBranchMerged_spec ⟨"ok", "", 0⟩ ⟨"  issue-1-x\n* main", "", 0⟩ "issue-1-x").2.2
     (by decide) (by decide)⟩

/-! ## `setupWorktree` (src/services/setup.ts)

The subprocess layer is supplied as an oracle `execFn : String → ExecResult`
giving the result of `exec('sh', ['-c', command], {cwd: worktreePath})` for
each command string (the working directory is fixed for one run).  The model
returns the full trace of a run: the progress callbacks issued, the commands
actually executed, and the final result. -/

deriving instance DecidableEq for Except

/-- The `SetupProgress` payload from `src/services/setup.ts`. -/
structure SetupProgress where
  step : String
  current : Nat
  total : Nat
deriving DecidableEq

/-- Observable outcome of one `setupWorktree` run. -/
structure SetupTrace where
  progress : List SetupProgress
  executed : List String
  result : Except String Unit
deriving DecidableEq

/-- `runCommand` from `src/services/setup.ts`: non-zero exit raises
`` `Command failed: ${command}\n${result.stderr}` ``. -/
def runCommand (execFn : String → ExecResult) (command : String) :
    Except String Unit :=
  let result := execFn command
  if result.exitCode ≠ 0 then
    .error ("Command failed: " ++ command ++ "\n" ++ result.stderr)
  else .ok ()

/-- The `for` loop of `setupWorktree`: run commands sequentially, report
1-based progress before each, stop at the first failure. -/
def setupLoop (execFn : String → ExecResult) (total : Nat) :
    Nat → List String → SetupTrace
  | _, [] => ⟨[], [], .ok ()⟩
  | i, command :: rest =>
    let p : SetupProgress := ⟨command, i + 1, total⟩
    match runCommand execFn command with
    | .error e => ⟨[p], [command], .error e⟩
    | .ok _ =>
      let t := setupLoop execFn total (i + 1) rest
      ⟨p :: t.progress, command :: t.executed, t.result⟩

/-- `setupWorktree` from `src/services/setup.ts`: null or empty command list
is an immediate non-error no-op, otherwise the loop runs. -/
def setupWorktree (execFn : String → ExecResult)
    (setupCommands : Option (List String)) : SetupTrace :=
  match setupCommands with
  | none => ⟨[], [], .ok ()⟩
  | some cmds =>
    if cmds.length = 0 then ⟨[], [], .ok ()⟩
    else setupLoop execFn cmds.length 0 cmds

/-- The expected progress-callback sequence: 1-based `current` starting at
`i + 1`, fixed `total`. -/
def progressFrom (total : Nat) : Nat → List String → List SetupProgress
  | _, [] => []
  | i, c :: rest => ⟨c, i + 1, total⟩ :: progressFrom total (i + 1) rest

theorem setupLoop_all_ok (execFn : String → ExecResult) (total : Nat) :
    ∀ (cmds : List String) (i : Nat), (∀ c ∈ cmds, (execFn c).exitCode = 0) →
      setupLoop execFn total i cmds = ⟨progressFrom total i cmds, cmds, .ok ()⟩ := by
  intro cmds
  induction cmds with
  | nil => intro i _; rfl
  | cons a rest ih =>
    intro i h
    have ha : (execFn a).exitCode = 0 := h a (List.mem_cons_self _ _)
    simp only [setupLoop, runCommand, ha]
    rw [if_neg (by simp)]
    rw [ih (i + 1) fun c hc => h c (List.mem_cons_of_mem _ hc)]
    rfl

theorem setupLoop_fails (execFn : String → ExecResult) (total : Nat) :
    ∀ (pre : List String) (i : Nat), (∀ c ∈ pre, (execFn c).exitCode = 0) →
      ∀ (bad : String) (post : List String), (execFn bad).exitCode ≠ 0 →
      setupLoop execFn total i (pre ++ bad :: post) =
        ⟨progressFrom total i (pre ++ [bad]), pre ++ [bad],
         .error ("Command failed: " ++ bad ++ "\n" ++ (execFn bad).stderr)⟩ := by
  intro pre
  induction pre with
  | nil =>
    intro i _ bad post hbad
    simp only [List.nil_append, setupLoop, runCommand]
    rw [if_pos hbad]
    rfl
  | cons a rest ih =>
    intro i h bad post hbad
    have ha : (execFn a).exitCode = 0 := h a (List.mem_cons_self _ _)
    simp only [List.cons_append, setupLoop, runCommand, ha]
    rw [if_neg (by simp)]
    rw [show (rest.append (bad :: post)) = rest ++ bad :: post from rfl]
    rw [ih (i + 1) (fun c hc => h c (List.mem_cons_of_mem _ hc)) bad post hbad]
    rfl

/-- **C6** (confirmed). `setupWorktree` with a null or empty command list is
an immediate non-error no-op (no progress call, nothing executed); with a
non-empty list it runs the commands strictly sequentially, invoking the
progress callback with 1-based `current` (and `total` the full list length)
before each command; if every command exits zero the whole list is executed
and the run succeeds, and on the first command with non-zero exit the run
stops — exactly the prefix up to and including that command is executed,
later commands are never attempted — raising a failure whose text embeds
that command's literal string and its captured stderr. -/
theorem setupWorktree_spec (execFn : String → ExecResult) :
    setupWorktree execFn none = ⟨[], [], .ok ()⟩
    ∧ setupWorktree execFn (some []) = ⟨[], [], .ok ()⟩
    ∧ (∀ cmds : List String, (∀ c ∈ cmds, (execFn c).exitCode = 0) →
        setupWorktree execFn (some cmds) =
          ⟨progressFrom cmds.length 0 cmds, cmds, .ok ()⟩)
    ∧ (∀ (pre : List String) (bad : String) (post : List String),
        (∀ c ∈ pre, (execFn c).exitCode = 0) → (execFn bad).exitCode ≠ 0 →
        setupWorktree execFn (some (pre ++ bad :: post)) =
          ⟨progressFrom (pre ++ bad :: post).length 0 (pre ++ [bad]),
           pre ++ [bad],
           .error ("Command failed: " ++ bad ++ "\n" ++ (execFn bad).stderr)⟩) := by
  refine ⟨rfl, rfl, ?_, ?_⟩
  · intro cmds h
    cases cmds with
    | nil => rfl
    | cons a rest =>
      simp only [setupWorktree]
      rw [if_neg (by simp)]
      exact setupLoop_all_ok execFn _ _ 0 h
  · intro pre bad post h hbad
    simp only [setupWorktree]
    rw [if_neg (by simp)]
    exact setupLoop_fails execFn _ pre 0 h bad post hbad

/-- Witness for `setupWorktree_spec`: the spec's scenario
`[cmdA(succeeds), cmdB(fails), cmdC(succeeds)]` executes exactly `cmdA` then
`cmdB`, reports progress 1/3 then 2/3, never reaches `cmdC`, and fails with
`cmdB`'s command text and stderr. -/
theorem setupWorktree_spec_witness :
    setupWorktree
        (fun c => if c = "cmdB" then ⟨"", "boom", 1⟩ else ⟨"", "", 0⟩)
        (some ["cmdA", "cmdB", "cmdC"]) =
      ⟨[⟨"cmdA", 1, 3⟩, ⟨"cmdB", 2, 3⟩], ["cmdA", "cmdB"],
       .error ("Command failed: cmdB\nboom")⟩ :=
  ((setupWorktree_spec (fun c => if c = "cmdB" then ⟨"", "boom", 1⟩ else ⟨"", "", 0⟩)).2.2.2
    ["cmdA"] "cmdB" ["cmdC"] (by decide) (by decide)).trans (by decide)

/-! ## `buildIssuePrompt` (src/services/terminal/index.ts) -/

/-- The character-level single-quote shell escaping used by both
`ITermAdapter.escapeForShell` and `buildIssuePrompt`: the regex replacement
of each `'` by the four characters `'\''`. -/
def escapeForShellChars : List Char → List Char
  | [] => []
  | c :: cs =>
    if c = '\'' then '\'' :: '\\' :: '\'' :: '\'' :: escapeForShellChars cs
    else c :: escapeForShellChars cs

/-- The prompt text template of `buildIssuePrompt`. -/
def issuePrompt (issueNumber : Nat) (issueTitle : String) : String :=
  "Work on GitHub issue #" ++ natDec issueNumber ++ ": " ++ issueTitle ++
    ". You can use `gh issue view " ++ natDec issueNumber ++
    "` to see full issue details."

/-- `buildIssuePrompt` from `src/services/terminal/index.ts`: the AI command
followed by the single-quote-escaped prompt wrapped in single quotes. -/
def buildIssuePrompt (aiCommand : String) (issueNumber : Nat)
    (issueTitle : String) : String :=
  let prompt := issuePrompt issueNumber issueTitle
  let shellEscapedPrompt := String.mk (escapeForShellChars prompt.data)
  aiCommand ++ " '" ++ shellEscapedPrompt ++ "'"

/-- State of the POSIX shell-word evaluator: outside quotes, inside single
quotes, or outside quotes right after a backslash. -/
inductive QuoteState where
  | out : QuoteState
  | inq : QuoteState
  | esc : QuoteState
deriving DecidableEq

/-- A POSIX-style evaluator for one shell word made of single-quoted spans
and backslash escapes.  Returns `none` when a quote or escape is left open at
the end of input, and the literal argument value otherwise. -/
def shellEvalWord : QuoteState → List Char → Option (List Char)
  | .out, [] => some []
  | .inq, [] => none
  | .esc, [] => none
  | .esc, d :: rest => Option.map (fun l => d :: l) (shellEvalWord .out rest)
  | .inq, c :: rest =>
    if c = '\'' then shellEvalWord .out rest
    else Option.map (fun l => c :: l) (shellEvalWord .inq rest)
  | .out, c :: rest =>
    if c = '\'' then shellEvalWord .inq rest
    else if c = '\\' then shellEvalWord .esc rest
    else Option.map (fun l => c :: l) (shellEvalWord .out rest)

theorem shellEvalWord_escaped : ∀ (p : List Char),
    shellEvalWord .inq (escapeForShellChars p ++ [Char.ofNat 39]) = some p := by
  intro p
  induction p with
  | nil => rfl
  | cons c cs ih =>
    by_cases hc : c = '\''
    · subst hc
      rw [show escapeForShellChars ('\'' :: cs) =
          '\'' :: '\\' :: '\'' :: '\'' :: escapeForShellChars cs from rfl]
      rw [show shellEvalWord .inq
          (('\'' :: '\\' :: '\'' :: '\'' :: escapeForShellChars cs) ++ [Char.ofNat 39]) =
          Option.map (fun l => '\'' :: l)
            (shellEvalWord .inq (escapeForShellChars cs ++ [Char.ofNat 39])) from rfl]
      rw [ih]
      rfl
    · simp only [escapeForShellChars, if_neg hc, List.cons_append, shellEvalWord,
        if_neg hc]
      rw [ih]
      rfl

/-- **C10** (confirmed). `buildIssuePrompt` returns the AI command followed
by the generated prompt wrapped in single quotes, with every single quote in
the prompt replaced by `'\''`; evaluating the quoted span with a POSIX
single-quote shell-word evaluator recovers the prompt exactly and consumes
the whole span as one argument — the quoting cannot be terminated from
inside the prompt (in particular not by quotes in the issue title). -/
theorem buildIssuePrompt_spec (aiCommand : String) (issueNumber : Nat)
    (issueTitle : String) :
    buildIssuePrompt aiCommand issueNumber issueTitle =
      aiCommand ++ " '" ++
        String.mk (escapeForShellChars (issuePrompt issueNumber issueTitle).data) ++ "'"
    ∧ shellEvalWord .out
        ('\'' :: (escapeForShellChars (issuePrompt issueNumber issueTitle).data
          ++ ['\''])) =
        some (issuePrompt issueNumber issueTitle).data := by
  constructor
  · rfl
  · rw [show shellEvalWord .out
        ('\'' :: (escapeForShellChars (issuePrompt issueNumber issueTitle).data
          ++ ['\''])) =
        shellEvalWord .inq (escapeForShellChars
          (issuePrompt issueNumber issueTitle).data ++ ['\'']) from rfl]
    exact shellEvalWord_escaped _

/-! ## `ITermAdapter` escaping and script building
(src/services/terminal/iterm.ts) -/

/-- First regex replacement of `escapeForAppleScript`: double every
backslash. -/
def escBackslashChars : List Char → List Char
  | [] => []
  | c :: cs =>
    if c = '\\' then '\\' :: '\\' :: escBackslashChars cs
    else c :: escBackslashChars cs

/-- Second regex replacement of `escapeForAppleScript`: put a backslash
before every double quote. -/
def escQuoteChars : List Char → List Char
  | [] => []
  | c :: cs =>
    if c = '"' then '\\' :: '"' :: escQuoteChars cs
    else c :: escQuoteChars cs

/-- `ITermAdapter.escapeForAppleScript`: escape backslashes, then double
quotes, for an AppleScript string literal. -/
def escapeForAppleScript (s : String) : String :=
  String.mk (escQuoteChars (escBackslashChars s.data))

/-- `ITermAdapter.escapeForShell`: replace every single quote by `'\''` for
single-quoted shell syntax. -/
def escapeForShell (s : String) : String :=
  String.mk (escapeForShellChars s.data)

/-- A terminal frame: a directory plus an optional command
(src/services/terminal/types.ts). -/
structure TerminalFrame where
  directory : String
  command : Option String
deriving DecidableEq

/-- `ITermAdapter.buildSinglePaneScript`: the AppleScript template with the
(already AppleScript-escaped) title, the shell-escaped directory, and the
AppleScript-escaped optional command interpolated. -/
def buildSinglePaneScript (escapedTitle : String) (frame : TerminalFrame) :
    String :=
  let escapedDir := escapeForShell frame.directory
  let escapedCommand := match frame.command with
    | some c => escapeForAppleScript c
    | none => ""
  "\n      tell application \"iTerm\"\n        activate\n        tell current window\n          create tab with default profile\n          tell current session\n            set name to \""
    ++ escapedTitle ++ "\"\n            write text \"cd '" ++ escapedDir
    ++ "'\"\n            "
    ++ (if escapedCommand = "" then ""
        else "write text \"" ++ escapedCommand ++ "\"")
    ++ "\n          end tell\n        end tell\n      end tell\n    "

/-- `ITermAdapter.buildSplitPaneScript`: as `buildSinglePaneScript` but with
a second, horizontally split session for the second frame. -/
def buildSplitPaneScript (escapedTitle : String)
    (frame1 frame2 : TerminalFrame) : String :=
  let escapedDir1 := escapeForShell frame1.directory
  let escapedDir2 := escapeForShell frame2.directory
  let escapedCommand1 := match frame1.command with
    | some c => escapeForAppleScript c
    | none => ""
  let escapedCommand2 := match frame2.command with
    | some c => escapeForAppleScript c
    | none => ""
  "\n      tell application \"iTerm\"\n        activate\n        tell current window\n          create tab with default profile\n          tell current session\n            set name to \""
    ++ escapedTitle ++ "\"\n            write text \"cd '" ++ escapedDir1
    ++ "'\"\n            "
    ++ (if escapedCommand1 = "" then ""
        else "write text \"" ++ escapedCommand1 ++ "\"")
    ++ "\n\n            set secondSession to (split horizontally with default profile)\n            tell secondSession\n              write text \"cd '"
    ++ escapedDir2 ++ "'\"\n              "
    ++ (if escapedCommand2 = "" then ""
        else "write text \"" ++ escapedCommand2 ++ "\"")
    ++ "\n            end tell\n          end tell\n        end tell\n      end tell\n    "

/-- Modelled from the spec: the single-pane script as §4.6 requires it, with
the frame directory receiving *both* escaping passes — first the
single-quoted-shell pass, then the AppleScript string-literal pass — because
it crosses both quoting contexts.  Kept for comparison with
`buildSinglePaneScript`, which is what the code does. -/
def buildSinglePaneScriptSpec (escapedTitle : String) (frame : TerminalFrame) :
    String :=
  let escapedDir := escapeForAppleScript (escapeForShell frame.directory)
  let escapedCommand := match frame.command with
    | some c => escapeForAppleScript c
    | none => ""
  "\n      tell application \"iTerm\"\n        activate\n        tell current window\n          create tab with default profile\n          tell current session\n            set name to \""
    ++ escapedTitle ++ "\"\n            write text \"cd '" ++ escapedDir
    ++ "'\"\n            "
    ++ (if escapedCommand = "" then ""
        else "write text \"" ++ escapedCommand ++ "\"")
    ++ "\n          end tell\n        end tell\n      end tell\n    "

/-- Modelled from the spec: the split-pane script with both directories
receiving both escaping passes. -/
def buildSplitPaneScriptSpec (escapedTitle : String)
    (frame1 frame2 : TerminalFrame) : String :=
  let escapedDir1 := escapeForAppleScript (escapeForShell frame1.directory)
  let escapedDir2 := escapeForAppleScript (escapeForShell frame2.directory)
  let escapedCommand1 := match frame1.command with
    | some c => escapeForAppleScript c
    | none => ""
  let escapedCommand2 := match frame2.command with
    | some c => escapeForAppleScript c
    | none => ""
  "\n      tell application \"iTerm\"\n        activate\n        tell current window\n          create tab with default profile\n          tell current session\n            set name to \""
    ++ escapedTitle ++ "\"\n            write text \"cd '" ++ escapedDir1
    ++ "'\"\n            "
    ++ (if escapedCommand1 = "" then ""
        else "write text \"" ++ escapedCommand1 ++ "\"")
    ++ "\n\n            set secondSession to (split horizontally with default profile)\n            tell secondSession\n              write text \"cd '"
    ++ escapedDir2 ++ "'\"\n              "
    ++ (if escapedCommand2 = "" then ""
        else "write text \"" ++ escapedCommand2 ++ "\"")
    ++ "\n            end tell\n          end tell\n        end tell\n      end tell\n    "

/-- **C3** counterexample to the claim as stated: for a frame directory
containing a double quote, the generated script differs from the spec's
two-pass version — the directory is only shell-escaped, and the raw `"`
lands unescaped inside the AppleScript string literal
`"cd 'a"b'"` of the generated script. -/
theorem buildScript_escaping_cex :
    buildSinglePaneScript "t" ⟨"a\"b", none⟩ ≠
      buildSinglePaneScriptSpec "t" ⟨"a\"b", none⟩
    ∧ isSubstringOf ("write text \"cd 'a\"b'\"".data)
        (buildSinglePaneScript "t" ⟨"a\"b", none⟩).data = true := by
  refine ⟨by decide, by decide⟩

theorem escapeForShellChars_id {l : List Char}
    (h : ∀ c ∈ l, ¬ c = '\'') : escapeForShellChars l = l := by
  induction l with
  | nil => rfl
  | cons a as ih =>
    simp only [escapeForShellChars, if_neg (h a (List.mem_cons_self _ _))]
    rw [ih fun c hc => h c (List.mem_cons_of_mem _ hc)]

theorem escBackslashChars_id {l : List Char}
    (h : ∀ c ∈ l, ¬ c = '\\') : escBackslashChars l = l := by
  induction l with
  | nil => rfl
  | cons a as ih =>
    simp only [escBackslashChars, if_neg (h a (List.mem_cons_self _ _))]
    rw [ih fun c hc => h c (List.mem_cons_of_mem _ hc)]

theorem escQuoteChars_id {l : List Char}
    (h : ∀ c ∈ l, ¬ c = '"') : escQuoteChars l = l := by
  induction l with
  | nil => rfl
  | cons a as ih =>
    simp only [escQuoteChars, if_neg (h a (List.mem_cons_self _ _))]
    rw [ih fun c hc => h c (List.mem_cons_of_mem _ hc)]

theorem escapes_id_of_safe {d : String}
    (h : ∀ c ∈ d.data, ¬ c = '\\' ∧ ¬ c = '"' ∧ ¬ c = '\'') :
    escapeForShell d = d ∧ escapeForAppleScript (escapeForShell d) = d := by
  have h1 : escapeForShell d = d := by
    show String.mk (escapeForShellChars d.data) = d
    rw [escapeForShellChars_id fun c hc => (h c hc).2.2]
  refine ⟨h1, ?_⟩
  rw [h1]
  show String.mk (escQuoteChars (escBackslashChars d.data)) = d
  rw [escBackslashChars_id fun c hc => (h c hc).1,
    escQuoteChars_id fun c hc => (h c hc).2.1]

/-- **C3** (corrected). In the generated scripts the window title and the
pane commands are escaped for the AppleScript string-literal syntax, but the
frame directories receive *only* the single-quoted-shell pass — not the
claimed second (AppleScript) pass.  The generated script agrees with the
spec's two-pass version exactly on directories that are untouched by both
passes, i.e. contain no backslash, double quote, or single quote; a
directory containing such characters is interpolated into the AppleScript
literal without the AppleScript pass (see the counterexample). -/
theorem buildScript_escaping_spec (escapedTitle : String)
    (frame1 frame2 : TerminalFrame)
    (h1 : ∀ c ∈ frame1.directory.data, ¬ c = '\\' ∧ ¬ c = '"' ∧ ¬ c = '\'')
    (h2 : ∀ c ∈ frame2.directory.data, ¬ c = '\\' ∧ ¬ c = '"' ∧ ¬ c = '\'') :
    buildSinglePaneScript escapedTitle frame1 =
      buildSinglePaneScriptSpec escapedTitle frame1
    ∧ buildSplitPaneScript escapedTitle frame1 frame2 =
      buildSplitPaneScriptSpec escapedTitle frame1 frame2 := by
  obtain ⟨ha1, hb1⟩ := escapes_id_of_safe h1
  obtain ⟨ha2, hb2⟩ := escapes_id_of_safe h2
  rw [ha1] at hb1
  rw [ha2] at hb2
  constructor
  · simp only [buildSinglePaneScript, buildSinglePaneScriptSpec, ha1, hb1]
  · simp only [buildSplitPaneScript, buildSplitPaneScriptSpec, ha1, hb1,
      ha2, hb2]

/-- Witness for `buildScript_escaping_spec` at concrete safe directories. -/
theorem buildScript_escaping_spec_witness :
    buildSinglePaneScript "#7: Fix" ⟨"/tmp/wt-7", some "npm test"⟩ =
      buildSinglePaneScriptSpec "#7: Fix" ⟨"/tmp/wt-7", some "npm test"⟩ :=
  (buildScript_escaping_spec "#7: Fix" ⟨"/tmp/wt-7", some "npm test"⟩
    ⟨"/tmp/wt-7", none⟩ (by decide) (by decide)).1

/-! ## The summon workflow (`doSummon` in src/index.tsx)

External effects are supplied as oracles: the worktree-creation call, the
issue-assignment call (whose failure the code swallows), the setup
subprocesses, and the terminal `openWindow` boolean.  The model records
whether the worktree got created, whether `openWindow` was invoked, and the
dialog shown at the end (`.ok` success message or `.error` message). -/

/-- `FrameConfig` from src/config/types.ts: an enabled flag plus an optional
command template. -/
structure FrameConfig where
  enabled : Bool
  command : Option String
deriving DecidableEq

/-- `buildFrames` from `src/services/terminal/index.ts`: frame 1 then frame 2
when enabled, both bound to the worktree directory; the second frame's
command may be overridden (`customFrame2Command ?? config.frame2.command`). -/
def buildFrames (directory : String) (frame1 frame2 : FrameConfig)
    (customFrame2Command : Option String) : List TerminalFrame :=
  (if frame1.enabled then [⟨directory, frame1.command⟩] else []) ++
    (if frame2.enabled then
      [⟨directory, match customFrame2Command with
        | some c => some c
        | none => frame2.command⟩]
    else [])

/-- The configuration subset `doSummon` reads. -/
structure SummonConfig where
  setupCommands : Option (List String)
  frame1 : FrameConfig
  frame2 : FrameConfig

/-- Oracles for one summon run. -/
structure SummonEnv where
  createResult : Except String (String × String)
  assignResult : Except String Unit
  execFn : String → ExecResult
  openWindowResult : Bool

/-- Observable outcome of one summon run. -/
structure SummonOutcome where
  worktreeCreated : Bool
  openWindowCalled : Bool
  result : Except String String
deriving DecidableEq

/-- `doSummon` from src/index.tsx: create the worktree (a failure aborts),
best-effort assign the issue (`assignResult` is swallowed), run the
configured setup commands (a failure aborts, the worktree stays), build the
frames and — when there is at least one — call `openWindow`, whose boolean
result the code discards, then show the success dialog with the path. -/
def doSummon (config : SummonConfig) (env : SummonEnv)
    (frame2Command : Option String) : SummonOutcome :=
  match env.createResult with
  | .error e => ⟨false, false, .error e⟩
  | .ok (worktreePath, _branchName) =>
    let setupTrace := match config.setupCommands with
      | some cmds =>
        if cmds.length > 0 then setupWorktree env.execFn (some cmds)
        else ⟨[], [], .ok ()⟩
      | none => ⟨[], [], .ok ()⟩
    match setupTrace.result with
    | .error e => ⟨true, false, .error e⟩
    | .ok _ =>
      let frames := buildFrames worktreePath config.frame1 config.frame2
        frame2Command
      if frames.length > 0 then
        ⟨true, true, .ok ("Created at " ++ worktreePath)⟩
      else ⟨true, false, .ok ("Created at " ++ worktreePath)⟩

/-- **C1** counterexample to the claim as stated: worktree creation succeeds,
the single configured setup command `ok-cmd` succeeds, the terminal-open call
is made and returns `false` — yet the workflow reports success (`Created at
/wt`), not a failure attributable to the terminal step.  (The worktree does
remain present, as the claim also says.) -/
theorem doSummon_terminal_cex :
    (doSummon ⟨some ["ok-cmd"], ⟨true, none⟩, ⟨false, none⟩⟩
        ⟨.ok ("/wt", "issue-1-x"), .ok (), fun _ => ⟨"", "", 0⟩, false⟩
        none).openWindowCalled = true
    ∧ (SummonEnv.openWindowResult
        ⟨.ok ("/wt", "issue-1-x"), .ok (), fun _ => ⟨"", "", 0⟩, false⟩) = false
    ∧ (doSummon ⟨some ["ok-cmd"], ⟨true, none⟩, ⟨false, none⟩⟩
        ⟨.ok ("/wt", "issue-1-x"), .ok (), fun _ => ⟨"", "", 0⟩, false⟩
        none).result = .ok "Created at /wt"
    ∧ (doSummon ⟨some ["ok-cmd"], ⟨true, none⟩, ⟨false, none⟩⟩
        ⟨.ok ("/wt", "issue-1-x"), .ok (), fun _ => ⟨"", "", 0⟩, false⟩
        none).worktreeCreated = true := by
  refine ⟨by decide, by decide, by decide, by decide⟩

/-- **C1** (corrected). The summon workflow reports the first failure of the
*creation* and *setup* steps: a creation failure aborts with nothing created,
and a setup failure aborts with the worktree left in place and the terminal
never opened.  But the terminal step's boolean is ignored: when creation and
every configured setup command succeed, summon reports success with the
resulting path *regardless of the terminal-open result*, the worktree
remaining present — contrary to the claim that a false terminal-open result
makes the final report a failure. -/
theorem doSummon_spec (config : SummonConfig) (env : SummonEnv)
    (frame2Command : Option String) :
    (∀ msg, env.createResult = .error msg →
      doSummon config env frame2Command = ⟨false, false, .error msg⟩)
    ∧ (∀ path branch, env.createResult = .ok (path, branch) →
        (∀ c ∈ config.setupCommands.getD [], (env.execFn c).exitCode = 0) →
        (doSummon config env frame2Command).result = .ok ("Created at " ++ path)
        ∧ (doSummon config env frame2Command).worktreeCreated = true)
    ∧ (∀ path branch pre bad post, env.createResult = .ok (path, branch) →
        config.setupCommands = some (pre ++ bad :: post) →
        (∀ c ∈ pre, (env.execFn c).exitCode = 0) →
        (env.execFn bad).exitCode ≠ 0 →
        doSummon config env frame2Command =
          ⟨true, false,
           .error ("Command failed: " ++ bad ++ "\n" ++ (env.execFn bad).stderr)⟩) := by
  refine ⟨?_, ?_, ?_⟩
  · intro msg h
    simp only [doSummon, h]
  · intro path branch h hok
    have hsetup : (match config.setupCommands with
        | some cmds =>
          if cmds.length > 0 then setupWorktree env.execFn (some cmds)
          else ⟨[], [], .ok ()⟩
        | none => (⟨[], [], .ok ()⟩ : SetupTrace)).result = .ok () := by
      cases hsc : config.setupCommands with
      | none => rfl
      | some cmds =>
        rw [hsc] at hok
        simp only [Option.getD] at hok
        cases cmds with
        | nil => rfl
        | cons a rest =>
          simp only [List.length_cons]
          rw [if_pos (by omega)]
          simp only [setupWorktree]
          rw [if_neg (by simp)]
          rw [setupLoop_all_ok env.execFn _ _ 0 hok]
    simp only [doSummon, h]
    constructor
    · rcases hfr : (buildFrames path config.frame1 config.frame2
        frame2Command).length with _ | n
      all_goals
        simp only [hsetup, hfr]
        split <;> simp_all
    · rcases hfr : (buildFrames path config.frame1 config.frame2
        frame2Command).length with _ | n
      all_goals
        simp only [hsetup, hfr]
        split <;> simp_all
  · intro path branch pre bad post h hsc hpre hbad
    have hlen : (pre ++ bad :: post).length > 0 := by
      simp
    simp only [doSummon, h, hsc]
    rw [if_pos hlen]
    simp only [setupWorktree]
    rw [if_neg (by simp)]
    rw [setupLoop_fails env.execFn _ pre 0 hpre bad post hbad]

/-- Witness for `doSummon_spec`: with creation succeeding and one succeeding
setup command, the run reports `Created at /wt` (the terminal-open boolean in
the environment is `true` here). -/
theorem doSummon_spec_witness :
    (doSummon ⟨some ["ok-cmd"], ⟨true, none⟩, ⟨false, none⟩⟩
        ⟨.ok ("/wt", "issue-1-x"), .ok (), fun _ => ⟨"", "", 0⟩, true⟩
        none).result = .ok ("Created at " ++ "/wt") :=
  ((doSummon_spec ⟨some ["ok-cmd"], ⟨true, none⟩, ⟨false, none⟩⟩
      ⟨.ok ("/wt", "issue-1-x"), .ok (), fun _ => ⟨"", "", 0⟩, true⟩
      none).2.1 "/wt" "issue-1-x" rfl (by decide)).1

/-! ## The banish workflow (`doBanish` in src/index.tsx) -/

/-- Oracles for one banish run: the advisory uncommitted-changes probe, the
best-effort terminal close, the worktree removal, the merge check, and the
branch deletion. -/
structure BanishEnv where
  hasChanges : Bool
  closeResult : Bool
  removeResult : Except String Unit
  merged : Bool
  deleteResult : Except String Unit
deriving DecidableEq

/-- Observable outcome of one banish run. -/
structure BanishOutcome where
  deleteAttempted : Bool
  result : Except String String
deriving DecidableEq

/-- `doBanish` from src/index.tsx: the uncommitted-changes probe only drives
an advisory progress message and the terminal close is best-effort (its
boolean is not inspected), so neither appears in the outcome; worktree
removal failure aborts with an error dialog; then, if the branch is merged,
deletion is attempted and its failure swallowed, and the success dialog
reports which case occurred. -/
def doBanish (env : BanishEnv) : BanishOutcome :=
  match env.removeResult with
  | .error e => ⟨false, .error e⟩
  | .ok _ =>
    if env.merged then
      match env.deleteResult with
      | .ok _ => ⟨true, .ok "Worktree removed, branch deleted"⟩
      | .error _ => ⟨true, .ok "Worktree removed, branch kept"⟩
    else ⟨false, .ok "Worktree removed, branch kept (unmerged)"⟩

/-- **C1**-adjacent check is in `doSummon_spec`; **C7** (confirmed).  After a
successful removal, branch deletion is attempted exactly when the branch is
merged; the three merge/delete cases are mutually exclusive and exhaustive
and produce three pairwise distinct messages — `branch deleted`,
`branch kept` (merged but delete failed, the failure being swallowed), and
`branch kept (unmerged)` — every one a success dialog that also reports the
removal (`Worktree removed` prefix); no case is an error.  (The spec's
`removed` label is the common `Worktree removed` part of every message; its
`branch kept (merged but delete failed)` label appears in the code as the
message `branch kept`.) -/
theorem doBanish_spec (env : BanishEnv) (h : env.removeResult = .ok ()) :
    (doBanish env).deleteAttempted = env.merged
    ∧ (env.merged = true → env.deleteResult = .ok () →
        doBanish env = ⟨true, .ok "Worktree removed, branch deleted"⟩)
    ∧ (∀ msg, env.merged = true → env.deleteResult = .error msg →
        doBanish env = ⟨true, .ok "Worktree removed, branch kept"⟩)
    ∧ (env.merged = false →
        doBanish env = ⟨false, .ok "Worktree removed, branch kept (unmerged)"⟩)
    ∧ (∃ m, (doBanish env).result = .ok m
        ∧ isSubstringOf ("Worktree removed".data) m.data = true)
    ∧ ("Worktree removed, branch deleted" ≠ "Worktree removed, branch kept"
        ∧ "Worktree removed, branch deleted" ≠
            "Worktree removed, branch kept (unmerged)"
        ∧ "Worktree removed, branch kept" ≠
            "Worktree removed, branch kept (unmerged)") := by
  refine ⟨?_, ?_, ?_, ?_, ?_, by decide, by decide, by decide⟩
  · simp only [doBanish, h]
    cases hm : env.merged with
    | false => rfl
    | true =>
      cases hd : env.deleteResult with
      | ok u => rfl
      | error e => rfl
  · intro hm hd
    simp only [doBanish, h, hm, hd]
    rfl
  · intro msg hm hd
    simp only [doBanish, h, hm, hd]
    rfl
  · intro hm
    simp only [doBanish, h, hm]
    rfl
  · simp only [doBanish, h]
    cases hm : env.merged with
    | false => exact ⟨_, rfl, by decide⟩
    | true =>
      cases hd : env.deleteResult with
      | ok u => exact ⟨_, rfl, by decide⟩
      | error e => exact ⟨_, rfl, by decide⟩

/-- Witness for `doBanish_spec`: removal succeeds, the branch is merged but
deletion fails — the workflow still succeeds with the `branch kept`
message (the deletion failure is swallowed). -/
theorem doBanish_spec_witness :
    doBanish ⟨false, true, .ok (), true, .error "denied"⟩ =
      ⟨true, .ok "Worktree removed, branch kept"⟩ :=
  (doBanish_spec ⟨false, true, .ok (), true, .error "denied"⟩ rfl).2.2.1
    "denied" rfl rfl

/-! ## `parseWorktreeOutput` (src/services/git.ts) -/

/-- The `Worktree` record from `src/services/git.ts`. -/
structure Worktree where
  path : String
  branch : String
  commit : String
  isMain : Bool
  issueNumber : Option Nat
  isLocked : Bool
  lockReason : Option String
  isPrunable : Bool
deriving DecidableEq

/-- The pending record the parser accumulates (`current` in the source),
with JavaScript's absent fields as `none`/`false`. -/
structure PartialWt where
  path : Option String := none
  commit : Option String := none
  branch : Option String := none
  locked : Bool := false
  lockReason : Option String := none
  prunable : Bool := false
deriving DecidableEq

theorem replaceFirstL_append (pat rest : List Char) (h : ¬ pat = []) :
    replaceFirstL pat (pat ++ rest) = rest := by
  cases pat with
  | nil => exact absurd rfl h
  | cons c cs =>
    rw [show (c :: cs) ++ rest = c :: (cs ++ rest) from rfl]
    simp only [replaceFirstL]
    rw [show c :: (cs ++ rest) = (c :: cs) ++ rest from rfl,
      isPrefixOf_append_self]
    rw [if_pos rfl]
    exact List.drop_left _ _

/-- One iteration of the parser's `for` loop on a non-blank line.  Each match
arm is one `startsWith`/`===` check of the source, in the source's order
(the arms are mutually exclusive, so the order is immaterial):
`worktree ` → path is the rest of the line; `HEAD ` → commit; `branch ` →
branch with the first `refs/heads/` removed; `detached` → branch is the
literal `"detached"`; `locked`/`locked <reason>`; `prunable`/`prunable <x>`
(the prunable reason is ignored); anything else leaves `current` unchanged. -/
def stepLine (current : PartialWt) (line : String) : PartialWt :=
  match line.data with
  | 'w' :: 'o' :: 'r' :: 'k' :: 't' :: 'r' :: 'e' :: 'e' :: ' ' :: rest =>
    { current with path := some (String.mk rest) }
  | 'H' :: 'E' :: 'A' :: 'D' :: ' ' :: rest =>
    { current with commit := some (String.mk rest) }
  | 'b' :: 'r' :: 'a' :: 'n' :: 'c' :: 'h' :: ' ' :: rest =>
    { current with
      branch := some (String.mk (replaceFirstL ("refs/heads/".data) rest)) }
  | 'd' :: 'e' :: 't' :: 'a' :: 'c' :: 'h' :: 'e' :: 'd' :: [] =>
    { current with branch := some "detached" }
  | 'l' :: 'o' :: 'c' :: 'k' :: 'e' :: 'd' :: [] =>
    { current with locked := true }
  | 'l' :: 'o' :: 'c' :: 'k' :: 'e' :: 'd' :: ' ' :: rest =>
    { current with locked := true, lockReason := some (String.mk rest) }
  | 'p' :: 'r' :: 'u' :: 'n' :: 'a' :: 'b' :: 'l' :: 'e' :: [] =>
    { current with prunable := true }
  | 'p' :: 'r' :: 'u' :: 'n' :: 'a' :: 'b' :: 'l' :: 'e' :: ' ' :: _ =>
    { current with prunable := true }
  | _ => current

/-- Closing a pending record (the body of `if (current.path &&
current.branch)` in the source, including JavaScript truthiness: an *empty*
path or branch is falsy and drops the record, an empty `lockReason` is falsy
and becomes `null`, a missing commit becomes `""`). -/
def flushRecord (current : PartialWt) : Option Worktree :=
  match current.path, current.branch with
  | some p, some b =>
    if p = "" ∨ b = "" then none
    else
      let isMain := b == "main" || b == "master"
      some { path := p, branch := b, commit := current.commit.getD "",
             isMain := isMain,
             issueNumber := if isMain then none else extractIssueNumber b,
             isLocked := current.locked,
             lockReason := match current.lockReason with
               | some "" => none
               | r => r,
             isPrunable := current.prunable }
  | _, _ => none

/-- The parser's loop over the lines: a blank line closes the pending record
(emitting it only when it captured a path and a branch), any other line is
accumulated; the end of input closes the last record with no trailing blank
line required. -/
def parseLines : List String → PartialWt → List Worktree
  | [], current =>
    match flushRecord current with
    | some w => [w]
    | none => []
  | line :: rest, current =>
    if line = "" then
      match flushRecord current with
      | some w => w :: parseLines rest {}
      | none => parseLines rest {}
    else parseLines rest (stepLine current line)

/-- `parseWorktreeOutput` from `src/services/git.ts`:
`output.trim().split('\n')` fed through the line loop. -/
def parseWorktreeOutput (output : String) : List Worktree :=
  parseLines ((splitOnChar '\n' (jsTrim output.data)).map String.mk) {}

/-- A porcelain record: its (non-blank) field lines.  Feeding a record
through the loop and closing it is `recordToWorktree`. -/
def recordToWorktree (record : List String) : Option Worktree :=
  flushRecord (record.foldl stepLine {})

/-- Porcelain records rendered as a line list, one blank separator line
between consecutive records (and none at the end). -/
def renderRecordLines : List (List String) → List String
  | [] => []
  | [r] => r
  | r :: rs => r ++ "" :: renderRecordLines rs

example : parseWorktreeOutput
    "worktree /a\nHEAD h1\nbranch refs/heads/main\n\nworktree /b\nbranch refs/heads/issue-42-add-feature\n" =
    [⟨"/a", "main", "h1", true, none, false, none, false⟩,
     ⟨"/b", "issue-42-add-feature", "", false, some 42, false, none, false⟩] := by
  decide

example : parseWorktreeOutput
    "worktree /a\nHEAD h1\nbranch refs/heads/wip\nlocked Work in progress\n" =
    [⟨"/a", "wip", "h1", false, none, true, some "Work in progress", false⟩] := by
  decide

theorem parseLines_append_noblank :
    ∀ (r rest : List String) (cur : PartialWt), (∀ l ∈ r, ¬ l = "") →
      parseLines (r ++ rest) cur = parseLines rest (r.foldl stepLine cur) := by
  intro r
  induction r with
  | nil => intro rest cur _; rfl
  | cons a as ih =>
    intro rest cur h
    have ha : ¬ a = "" := h a (List.mem_cons_self _ _)
    simp only [List.cons_append, parseLines]
    rw [if_neg ha]
    exact ih rest (stepLine cur a) fun l hl => h l (List.mem_cons_of_mem _ hl)

theorem parseLines_noblank (r : List String) (cur : PartialWt)
    (h : ∀ l ∈ r, ¬ l = "") :
    parseLines r cur = (flushRecord (r.foldl stepLine cur)).toList := by
  have h2 := parseLines_append_noblank r [] cur h
  rw [List.append_nil] at h2
  rw [h2]
  rw [show parseLines [] (r.foldl stepLine cur) =
    (match flushRecord (r.foldl stepLine cur) with
      | some w => [w]
      | none => []) from rfl]
  cases flushRecord (r.foldl stepLine cur) <;> rfl

theorem parseLines_render :
    ∀ (recs : List (List String)), (∀ r ∈ recs, ∀ l ∈ r, ¬ l = "") →
      parseLines (renderRecordLines recs) {} = recs.filterMap recordToWorktree
      ∧ parseLines (renderRecordLines recs ++ [""]) {} =
          recs.filterMap recordToWorktree := by
  intro recs
  induction recs with
  | nil => intro _; exact ⟨rfl, rfl⟩
  | cons r rest ih =>
    intro h
    have hr : ∀ l ∈ r, ¬ l = "" := h r (List.mem_cons_self _ _)
    obtain ⟨ih1, ih2⟩ := ih fun r' hr' l hl =>
      h r' (List.mem_cons_of_mem _ hr') l hl
    cases rest with
    | nil =>
      constructor
      · rw [show renderRecordLines [r] = r from rfl, parseLines_noblank r {} hr]
        cases hf : recordToWorktree r with
        | none =>
          rw [show flushRecord (r.foldl stepLine {}) = recordToWorktree r from rfl, hf]
          simp [List.filterMap_cons, hf]
        | some w =>
          rw [show flushRecord (r.foldl stepLine {}) = recordToWorktree r from rfl, hf]
          simp [List.filterMap_cons, hf]
      · rw [show renderRecordLines [r] = r from rfl,
          parseLines_append_noblank r [""] {} hr]
        rw [show parseLines [""] (r.foldl stepLine {}) =
          (match flushRecord (r.foldl stepLine {}) with
            | some w => w :: parseLines [] ({} : PartialWt)
            | none => parseLines [] ({} : PartialWt)) from rfl]
        cases hf : recordToWorktree r with
        | none =>
          rw [show flushRecord (r.foldl stepLine {}) = recordToWorktree r from rfl, hf]
          simp [List.filterMap_cons, hf, parseLines, flushRecord]
        | some w =>
          rw [show flushRecord (r.foldl stepLine {}) = recordToWorktree r from rfl, hf]
          simp [List.filterMap_cons, hf, parseLines, flushRecord]
    | cons r2 rs2 =>
      have hrender : renderRecordLines (r :: r2 :: rs2) =
          r ++ "" :: renderRecordLines (r2 :: rs2) := rfl
      constructor
      · rw [hrender, parseLines_append_noblank r _ {} hr]
        rw [show parseLines ("" :: renderRecordLines (r2 :: rs2))
            (r.foldl stepLine {}) =
          (match flushRecord (r.foldl stepLine {}) with
            | some w => w :: parseLines (renderRecordLines (r2 :: rs2))
                ({} : PartialWt)
            | none => parseLines (renderRecordLines (r2 :: rs2))
                ({} : PartialWt)) from rfl]
        cases hf : recordToWorktree r with
        | none =>
          rw [show flushRecord (r.foldl stepLine {}) = recordToWorktree r from rfl, hf]
          simp [List.filterMap_cons, hf, ih1]
        | some w =>
          rw [show flushRecord (r.foldl stepLine {}) = recordToWorktree r from rfl, hf]
          simp [List.filterMap_cons, hf, ih1]
      · rw [hrender,
          show (r ++ "" :: renderRecordLines (r2 :: rs2)) ++ [""] =
            r ++ "" :: (renderRecordLines (r2 :: rs2) ++ [""]) by
              simp [List.cons_append, List.append_assoc],
          parseLines_append_noblank r _ {} hr]
        rw [show parseLines ("" :: (renderRecordLines (r2 :: rs2) ++ [""]))
            (r.foldl stepLine {}) =
          (match flushRecord (r.foldl stepLine {}) with
            | some w => w :: parseLines (renderRecordLines (r2 :: rs2) ++ [""])
                ({} : PartialWt)
            | none => parseLines (renderRecordLines (r2 :: rs2) ++ [""])
                ({} : PartialWt)) from rfl]
        cases hf : recordToWorktree r with
        | none =>
          rw [show flushRecord (r.foldl stepLine {}) = recordToWorktree r from rfl, hf]
          simp [List.filterMap_cons, hf, ih2]
        | some w =>
          rw [show flushRecord (r.foldl stepLine {}) = recordToWorktree r from rfl, hf]
          simp [List.filterMap_cons, hf, ih2]

/-- **C4** (confirmed). For porcelain input made of records of non-blank
field lines: the parser emits exactly one `Worktree` per record that
captured a non-empty path and branch, in input order (`filterMap`); a record
that captured no path or branch contributes nothing and does not disturb its
neighbours; the result is the same with and without a trailing blank line
after the final record; a record is kept exactly when its accumulated path
and branch are present and non-empty; and the field derivations are as
claimed — `branch refs/heads/<name>` is stripped to `<name>`, a `detached`
line sets branch to the literal `"detached"` (not a main branch, and with no
issue number), `main` yields `isMain = true` with `issueNumber = none`, and
an `issue-<N>-<slug>` branch yields `issueNumber = N`. -/
theorem parseWorktreeOutput_spec (recs : List (List String))
    (h : ∀ r ∈ recs, ∀ l ∈ r, ¬ l = "") :
    (parseLines (renderRecordLines recs) {} = recs.filterMap recordToWorktree
      ∧ parseLines (renderRecordLines recs ++ [""]) {} =
          recs.filterMap recordToWorktree)
    ∧ (∀ record : List String, (recordToWorktree record).isSome = true ↔
        ((record.foldl stepLine {}).path.getD "" ≠ ""
          ∧ (record.foldl stepLine {}).branch.getD "" ≠ ""))
    ∧ (∀ p c b : String, ¬ p = "" → ¬ b = "" →
        recordToWorktree ["worktree " ++ p, "HEAD " ++ c,
            "branch refs/heads/" ++ b] =
          some ⟨p, b, c, b == "main" || b == "master",
            if (b == "main" || b == "master") = true then none
            else extractIssueNumber b,
            false, none, false⟩)
    ∧ (∀ p : String, ¬ p = "" →
        recordToWorktree ["worktree " ++ p, "detached"] =
          some ⟨p, "detached", "", false, none, false, none, false⟩)
    ∧ (∀ p : String, ¬ p = "" →
        recordToWorktree ["worktree " ++ p, "branch refs/heads/main"] =
          some ⟨p, "main", "", true, none, false, none, false⟩)
    ∧ (∀ (p s : String) (n : Nat), ¬ p = "" →
        recordToWorktree ["worktree " ++ p,
            "branch refs/heads/" ++ ("issue-" ++ natDec n ++ "-" ++ s)] =
          some ⟨p, "issue-" ++ natDec n ++ "-" ++ s, "", false, some n,
            false, none, false⟩) := by
  refine ⟨parseLines_render recs h, ?_, ?_, ?_, ?_, ?_⟩
  · intro record
    simp only [recordToWorktree]
    generalize record.foldl stepLine {} = st
    obtain ⟨op, oc, ob, lk, lr, pr⟩ := st
    cases op with
    | none => simp [flushRecord]
    | some p =>
      cases ob with
      | none => simp [flushRecord]
      | some b =>
        by_cases hp0 : p = ""
        · simp [flushRecord, hp0]
        · by_cases hb0 : b = ""
          · simp [flushRecord, hp0, hb0]
          · simp [flushRecord, hp0, hb0]
  · intro p c b hp hb
    have hfold : ((["worktree " ++ p, "HEAD " ++ c,
        "branch refs/heads/" ++ b]).foldl stepLine {}) =
        ⟨some p, some c,
          some (String.mk (replaceFirstL ("refs/heads/".data)
            ("refs/heads/".data ++ b.data))), false, none, false⟩ := rfl
    rw [replaceFirstL_append _ _ (by decide),
      show String.mk b.data = b from rfl] at hfold
    simp only [recordToWorktree, hfold, flushRecord]
    rw [if_neg (fun hor => hor.elim hp hb)]
    rfl
  · intro p hp
    have hfold : ((["worktree " ++ p, "detached"]).foldl stepLine {}) =
        ⟨some p, none, some "detached", false, none, false⟩ := rfl
    simp only [recordToWorktree, hfold, flushRecord]
    rw [if_neg (fun hor => hor.elim hp (by decide))]
    rfl
  · intro p hp
    have hfold : ((["worktree " ++ p, "branch refs/heads/main"]).foldl
        stepLine {}) = ⟨some p, none, some "main", false, none, false⟩ := rfl
    simp only [recordToWorktree, hfold, flushRecord]
    rw [if_neg (fun hor => hor.elim hp (by decide))]
    rfl
  · intro p s n hp
    have hfold : ((["worktree " ++ p,
        "branch refs/heads/" ++ ("issue-" ++ natDec n ++ "-" ++ s)]).foldl
          stepLine {}) =
        ⟨some p, none,
          some (String.mk (replaceFirstL ("refs/heads/".data)
            ("refs/heads/".data ++ ("issue-" ++ natDec n ++ "-" ++ s).data))),
          false, none, false⟩ := rfl
    rw [replaceFirstL_append _ _ (by decide),
      show String.mk ("issue-" ++ natDec n ++ "-" ++ s).data =
        "issue-" ++ natDec n ++ "-" ++ s from rfl] at hfold
    have hbne : ¬ ("issue-" ++ natDec n ++ "-" ++ s) = "" := by
      intro heq
      have hl := congrArg String.length heq
      simp only [String.length_append] at hl
      rw [show "issue-".length = 6 from rfl, show "-".length = 1 from rfl,
        show "".length = 0 from rfl] at hl
      omega
    have h1 : ¬ ("issue-" ++ natDec n ++ "-" ++ s) = "main" := by
      intro heq
      have hl := congrArg String.length heq
      simp only [String.length_append] at hl
      rw [show "issue-".length = 6 from rfl, show "-".length = 1 from rfl,
        show "main".length = 4 from rfl] at hl
      omega
    have h2 : ¬ ("issue-" ++ natDec n ++ "-" ++ s) = "master" := by
      intro heq
      have hl := congrArg String.length heq
      simp only [String.length_append] at hl
      rw [show "issue-".length = 6 from rfl, show "-".length = 1 from rfl,
        show "master".length = 6 from rfl] at hl
      omega
    have hmain : (("issue-" ++ natDec n ++ "-" ++ s) == "main"
        || ("issue-" ++ natDec n ++ "-" ++ s) == "master") = false := by
      rw [beq_eq_false_iff_ne.mpr h1, beq_eq_false_iff_ne.mpr h2]
      rfl
    simp only [recordToWorktree, hfold, flushRecord]
    rw [if_neg (fun hor => hor.elim hp hbne)]
    simp only [hmain]
    rw [if_neg (by simp)]
    rw [extractIssueNumber_issue n s]
    rfl

/-- Witness for `parseWorktreeOutput_spec` at the spec's end-to-end
scenario 1: one main-branch record and one `issue-42-add-feature` record
parse to two `Worktree` values in order, the second with `issueNumber = 42`
and `isMain = false`. -/
theorem parseWorktreeOutput_spec_witness :
    parseLines (renderRecordLines
      [["worktree /r", "HEAD aaa", "branch refs/heads/main"],
       ["worktree /r-issue-42-add-feature",
        "branch refs/heads/issue-42-add-feature"]]) {} =
      [⟨"/r", "main", "aaa", true, none, false, none, false⟩,
       ⟨"/r-issue-42-add-feature", "issue-42-add-feature", "", false, some 42,
        false, none, false⟩] :=
  ((parseWorktreeOutput_spec
      [["worktree /r", "HEAD aaa", "branch refs/heads/main"],
       ["worktree /r-issue-42-add-feature",
        "branch refs/heads/issue-42-add-feature"]] (by decide)).1.1).trans
    (by decide)

end WorktreeWizard
